import Mathlib

/-!
Verification of the VPG (vanilla policy gradient) trainer in `solution.py`:
the discounted cumulative sum, the trajectory buffer (`store`, `end_traj`,
`get`), the actor-critic `step` sampling, the policy update, and the
epoch-structured training loop, shallowly embedded over `ℝ` (floats are
modelled as reals) with lists for the numpy arrays.
-/

/-- `scipy.signal.lfilter([1], [1, -d], ·)` specialised to a first order IIR
filter: each output is `input + d * previous_output`, with carry `prev`
(zero initial condition in the source). Mirrors `solution.py` line 23. -/
def lfilter1 (d : ℝ) : List ℝ → ℝ → List ℝ
  | [], _ => []
  | a :: rest, prev => (a + d * prev) :: lfilter1 d rest (a + d * prev)

/-- `discount_cumsum(x, discount)` from `solution.py` lines 16-23:
`lfilter([1], [1, -discount], x[::-1])[::-1]`. -/
def discount_cumsum (x : List ℝ) (d : ℝ) : List ℝ :=
  (lfilter1 d x.reverse 0).reverse

theorem lfilter1_length (d : ℝ) (x : List ℝ) (p : ℝ) :
    (lfilter1 d x p).length = x.length := by
  induction x generalizing p with
  | nil => rfl
  | cons a rest ih => simp [lfilter1, ih]

theorem lfilter1_append_singleton (d : ℝ) (x : List ℝ) (a : ℝ) (p : ℝ) :
    lfilter1 d (x ++ [a]) p =
      lfilter1 d x p ++ [a + d * (lfilter1 d x p).getLastD p] := by
  induction x generalizing p with
  | nil => simp [lfilter1]
  | cons b rest ih =>
      simp only [List.cons_append, lfilter1, List.getLastD_cons]
      rw [List.append_eq, ih]

theorem discount_cumsum_nil (d : ℝ) : discount_cumsum [] d = [] := rfl

theorem discount_cumsum_length (x : List ℝ) (d : ℝ) :
    (discount_cumsum x d).length = x.length := by
  simp [discount_cumsum, lfilter1_length]

theorem discount_cumsum_cons (a : ℝ) (x : List ℝ) (d : ℝ) :
    discount_cumsum (a :: x) d =
      (a + d * (discount_cumsum x d).headD 0) :: discount_cumsum x d := by
  have hrev : (a :: x).reverse = x.reverse ++ [a] := by simp
  have hlast : ∀ (l : List ℝ), l.getLastD 0 = l.reverse.headD 0 := by
    intro l
    induction l with
    | nil => rfl
    | cons b t ih =>
        rcases t with _ | ⟨c, t'⟩
        · rfl
        · simpa [List.getLastD_cons] using ih
  simp only [discount_cumsum, hrev, lfilter1_append_singleton, List.reverse_append,
    List.reverse_cons, List.reverse_nil, List.nil_append, List.cons_append,
    List.reverse_reverse]
  rw [hlast (lfilter1 d x.reverse 0)]

theorem sum_range_cons (a : ℝ) (l : List ℝ) (d : ℝ) :
    ∑ k ∈ Finset.range (l.length + 1), d ^ k * (a :: l).getD k 0 =
      a + d * ∑ k ∈ Finset.range l.length, d ^ k * l.getD k 0 := by
  rw [Finset.sum_range_succ']
  simp only [pow_zero, one_mul, List.getD_cons_zero, List.getD_cons_succ]
  rw [Finset.mul_sum, add_comm]
  congr 1
  exact Finset.sum_congr rfl fun k _ => by rw [pow_succ]; ring

theorem discount_cumsum_getD (x : List ℝ) (d : ℝ) :
    ∀ i < x.length, (discount_cumsum x d).getD i 0 =
      ∑ k ∈ Finset.range (x.length - i), d ^ k * x.getD (i + k) 0 := by
  induction x with
  | nil => intro i hi; simp at hi
  | cons a rest ih =>
      intro i hi
      rw [discount_cumsum_cons]
      match i with
      | 0 =>
          rcases rest with _ | ⟨b, rest'⟩
          · simp [discount_cumsum_nil]
          · have h0 : (0 : ℕ) < (b :: rest').length := by simp
            have hhead : (discount_cumsum (b :: rest') d).headD 0 =
                (discount_cumsum (b :: rest') d).getD 0 0 := by
              rw [discount_cumsum_cons]; rfl
            rw [List.getD_cons_zero, hhead, ih 0 h0]
            simp only [Nat.sub_zero, Nat.zero_add, List.length_cons]
            have hsc := sum_range_cons a (b :: rest') d
            simp only [List.length_cons] at hsc
            rw [hsc]
      | j + 1 =>
          have hj : j < rest.length := by simpa using hi
          simp only [List.getD_cons_succ, ih j hj, List.length_cons]
          have hlen : rest.length - j = rest.length + 1 - (j + 1) := by omega
          rw [← hlen]
          apply Finset.sum_congr rfl
          intro k _
          have hjk : j + 1 + k = (j + k) + 1 := by omega
          rw [hjk, List.getD_cons_succ]

theorem discount_cumsum_zero_discount (x : List ℝ) :
    discount_cumsum x 0 = x := by
  induction x with
  | nil => rfl
  | cons a rest ih => rw [discount_cumsum_cons, ih]; simp

/-- `np.mean`: sum divided by length. -/
noncomputable def npMean (l : List ℝ) : ℝ := l.sum / l.length

/-- `np.std`: square root of the mean squared deviation from the mean. -/
noncomputable def npStd (l : List ℝ) : ℝ :=
  Real.sqrt (npMean (l.map fun x => (x - npMean l) ^ 2))

/-- Python slice `l[a:b]` (for `a ≤ b`). -/
def sliceOf (l : List α) (a b : ℕ) : List α := (l.drop a).take (b - a)

/-- numpy slice assignment `l[s:s+len(vs)] = vs`: successive `List.set` writes. -/
def setSlice (l : List ℝ) (s : ℕ) : List ℝ → List ℝ
  | [] => l
  | v :: rest => setSlice (l.set s v) (s + 1) rest

theorem setSlice_length (vs : List ℝ) :
    ∀ (l : List ℝ) (s : ℕ), (setSlice l s vs).length = l.length := by
  induction vs with
  | nil => intro l s; rfl
  | cons v rest ih => intro l s; rw [setSlice, ih]; simp

theorem setSlice_getD_of_lt (vs : List ℝ) :
    ∀ (l : List ℝ) (s i : ℕ), i < s → (setSlice l s vs).getD i 0 = l.getD i 0 := by
  induction vs with
  | nil => intro l s i _; rfl
  | cons v rest ih =>
      intro l s i hi
      rw [setSlice, ih _ _ _ (Nat.lt_succ_of_lt hi)]
      rcases Nat.lt_or_ge i l.length with h | h
      · rw [List.getD_eq_getElem _ _ (by simpa using h),
          List.getD_eq_getElem _ _ h]
        exact List.getElem_set_ne (by omega) _
      · rw [List.getD_eq_default _ _ (by simpa using h), List.getD_eq_default _ _ h]

theorem setSlice_getD_of_mem (vs : List ℝ) :
    ∀ (l : List ℝ) (s : ℕ), s + vs.length ≤ l.length →
      ∀ i < vs.length, (setSlice l s vs).getD (s + i) 0 = vs.getD i 0 := by
  induction vs with
  | nil => intro l s _ i hi; simp at hi
  | cons v rest ih =>
      intro l s hle i hi
      match i with
      | 0 =>
          have hs : s < l.length := by simp at hle; omega
          rw [setSlice, List.getD_cons_zero]
          have h1 : (setSlice (l.set s v) (s + 1) rest).getD (s + 0) 0
              = (l.set s v).getD (s + 0) 0 := setSlice_getD_of_lt _ _ _ _ (by omega)
          rw [h1, Nat.add_zero, List.getD_eq_getElem _ _ (by simpa using hs)]
          exact List.getElem_set_self (by simpa using hs)
      | j + 1 =>
          rw [setSlice, List.getD_cons_succ]
          have hle' : (s + 1) + rest.length ≤ (l.set s v).length := by
            simp at hle ⊢; omega
          have hj : j < rest.length := by simpa using hi
          have := ih (l.set s v) (s + 1) hle' j hj
          rwa [show s + (j + 1) = (s + 1) + j by omega]

theorem sliceOf_length (l : List α) (a b : ℕ) (_hab : a ≤ b) (hb : b ≤ l.length) :
    (sliceOf l a b).length = b - a := by
  simp [sliceOf]; omega

theorem sliceOf_getD (l : List ℝ) (a b : ℕ) (hb : b ≤ l.length) :
    ∀ i < b - a, (sliceOf l a b).getD i 0 = l.getD (a + i) 0 := by
  intro i hi
  have hlen : (sliceOf l a b).length = b - a := sliceOf_length l a b (by omega) hb
  have hil : i < (sliceOf l a b).length := by omega
  rw [List.getD_eq_getElem _ _ hil,
    List.getD_eq_getElem _ _ (show a + i < l.length by omega)]
  simp [sliceOf]

/-- Failure modes of the buffer's `assert` statements: `store`'s assert
(`ptr < max_size`, "BufferFullError") and `get`'s assert
(`ptr == max_size`, "BufferNotFullError"). -/
inductive BufErr where
  | bufferFull
  | bufferNotFull
deriving DecidableEq

/-- `VPGBuffer` state (`solution.py` lines 121-141): seven parallel arrays,
the discount factors, the write cursor `ptr`, the open-trajectory marker
`path_start_idx` and the capacity `max_size`. Observation and action entries
are abstract (`O`, `A`); numeric arrays are lists of reals. -/
structure VPGBuffer (O A : Type) where
  obs_buf : List O
  act_buf : List A
  phi_buf : List ℝ
  rew_buf : List ℝ
  ret_buf : List ℝ
  val_buf : List ℝ
  logp_buf : List ℝ
  gamma : ℝ
  lam : ℝ
  ptr : ℕ
  path_start_idx : ℕ
  max_size : ℕ

/-- `VPGBuffer.__init__`: zeroed arrays of length `size`, both cursors 0. -/
def VPGBuffer.init (obs0 : O) (act0 : A) (size : ℕ) (gamma lam : ℝ) :
    VPGBuffer O A :=
  { obs_buf := List.replicate size obs0
    act_buf := List.replicate size act0
    phi_buf := List.replicate size 0
    rew_buf := List.replicate size 0
    ret_buf := List.replicate size 0
    val_buf := List.replicate size 0
    logp_buf := List.replicate size 0
    gamma := gamma
    lam := lam
    ptr := 0
    path_start_idx := 0
    max_size := size }

/-- `VPGBuffer.store` (lines 143-155): assert `ptr < max_size`, write the five
transition components at index `ptr`, increment `ptr`. -/
def VPGBuffer.store (b : VPGBuffer O A) (obs : O) (act : A)
    (rew val logp : ℝ) : Except BufErr (VPGBuffer O A) :=
  if b.ptr < b.max_size then
    .ok { b with
      obs_buf := b.obs_buf.set b.ptr obs
      act_buf := b.act_buf.set b.ptr act
      rew_buf := b.rew_buf.set b.ptr rew
      val_buf := b.val_buf.set b.ptr val
      logp_buf := b.logp_buf.set b.ptr logp
      ptr := b.ptr + 1 }
  else
    .error .bufferFull

/-- `np.append(self.rew_buf[path_slice], last_val)` from `end_traj`. -/
def VPGBuffer.rewsWith (b : VPGBuffer O A) (last_val : ℝ) : List ℝ :=
  sliceOf b.rew_buf b.path_start_idx b.ptr ++ [last_val]

/-- `np.append(self.val_buf[path_slice], last_val)` from `end_traj`. -/
def VPGBuffer.valsWith (b : VPGBuffer O A) (last_val : ℝ) : List ℝ :=
  sliceOf b.val_buf b.path_start_idx b.ptr ++ [last_val]

/-- `deltas = rews[:-1] + self.gamma*vals[1:] - vals[:-1]` (line 172):
numpy elementwise arithmetic on equal-length arrays, as `zipWith`. -/
def VPGBuffer.deltasOf (b : VPGBuffer O A) (last_val : ℝ) : List ℝ :=
  List.zipWith (fun x y => x - y)
    (List.zipWith (fun r v => r + b.gamma * v)
      (b.rewsWith last_val).dropLast ((b.valsWith last_val).drop 1))
    ((b.valsWith last_val).dropLast)

/-- `VPGBuffer.end_traj` (lines 157-182): write the GAE advantages
(`discount_cumsum(deltas, gamma*lam)`) and the rewards-to-go
(`discount_cumsum(rews[:-1], gamma)`) into the open slice, then close it. -/
def VPGBuffer.end_traj (b : VPGBuffer O A) (last_val : ℝ) : VPGBuffer O A :=
  { b with
    phi_buf := setSlice b.phi_buf b.path_start_idx
      (discount_cumsum (b.deltasOf last_val) (b.gamma * b.lam))
    ret_buf := setSlice b.ret_buf b.path_start_idx
      (discount_cumsum (b.rewsWith last_val).dropLast b.gamma)
    path_start_idx := b.ptr }

/-- The dict returned by `VPGBuffer.get` (lines 196-198). -/
structure BufData (O A : Type) where
  obs : List O
  act : List A
  ret : List ℝ
  phi : List ℝ
  logp : List ℝ

/-- `VPGBuffer.get` (lines 184-198): assert `ptr == max_size`, reset both
cursors, normalize the advantage array in place as `(x - mean) / std`, and
return the buffer contents. -/
noncomputable def VPGBuffer.get (b : VPGBuffer O A) :
    Except BufErr (VPGBuffer O A × BufData O A) :=
  if b.ptr = b.max_size then
    let mean := npMean b.phi_buf
    let std := npStd b.phi_buf
    let phi := b.phi_buf.map fun x => (x - mean) / std
    .ok ({ b with ptr := 0, path_start_idx := 0, phi_buf := phi },
      { obs := b.obs_buf, act := b.act_buf, ret := b.ret_buf,
        phi := phi, logp := b.logp_buf })
  else
    .error .bufferNotFull

theorem end_traj_ptr (b : VPGBuffer O A) (lv : ℝ) :
    (b.end_traj lv).ptr = b.ptr := rfl

theorem end_traj_max_size (b : VPGBuffer O A) (lv : ℝ) :
    (b.end_traj lv).max_size = b.max_size := rfl

theorem end_traj_phi_length (b : VPGBuffer O A) (lv : ℝ) :
    (b.end_traj lv).phi_buf.length = b.phi_buf.length := by
  simp [VPGBuffer.end_traj, setSlice_length]

theorem end_traj_ret_length (b : VPGBuffer O A) (lv : ℝ) :
    (b.end_traj lv).ret_buf.length = b.ret_buf.length := by
  simp [VPGBuffer.end_traj, setSlice_length]

/-- The TD residual exactly as C1's formula words it: with `rewards'` and
`values'` the open slice's rewards and values each with `last_val` appended,
`delta[i] = rewards'[i] + gamma * values'[i+1] - values'[i]`. -/
def tdResidualSpec (b : VPGBuffer O A) (lv : ℝ) (i : ℕ) : ℝ :=
  (b.rewsWith lv).getD i 0 + b.gamma * (b.valsWith lv).getD (i + 1) 0
    - (b.valsWith lv).getD i 0

/-- The residual sequence of the open slice, indexed per the spec wording. -/
def deltasSpec (b : VPGBuffer O A) (lv : ℝ) : List ℝ :=
  (List.range (b.ptr - b.path_start_idx)).map (tdResidualSpec b lv)

theorem rewsWith_dropLast (b : VPGBuffer O A) (lv : ℝ) :
    (b.rewsWith lv).dropLast = sliceOf b.rew_buf b.path_start_idx b.ptr := by
  simp [VPGBuffer.rewsWith]

theorem valsWith_dropLast (b : VPGBuffer O A) (lv : ℝ) :
    (b.valsWith lv).dropLast = sliceOf b.val_buf b.path_start_idx b.ptr := by
  simp [VPGBuffer.valsWith]

theorem deltasOf_eq_spec (b : VPGBuffer O A) (lv : ℝ)
    (h1 : b.path_start_idx ≤ b.ptr) (h2 : b.ptr ≤ b.rew_buf.length)
    (h3 : b.ptr ≤ b.val_buf.length) :
    b.deltasOf lv = deltasSpec b lv := by
  have hrlen : (b.rewsWith lv).length = (b.ptr - b.path_start_idx) + 1 := by
    simp [VPGBuffer.rewsWith, sliceOf_length _ _ _ h1 h2]
  have hvlen : (b.valsWith lv).length = (b.ptr - b.path_start_idx) + 1 := by
    simp [VPGBuffer.valsWith, sliceOf_length _ _ _ h1 h3]
  apply List.ext_getElem
  · simp [VPGBuffer.deltasOf, deltasSpec, hrlen, hvlen]
  · intro i hi hi'
    have hiL : i < b.ptr - b.path_start_idx := by
      simpa [deltasSpec] using hi'
    simp only [VPGBuffer.deltasOf, List.getElem_zipWith, List.getElem_dropLast,
      List.getElem_drop, deltasSpec, List.getElem_map, List.getElem_range]
    rw [tdResidualSpec,
      List.getD_eq_getElem _ _ (show i < (b.rewsWith lv).length by omega),
      List.getD_eq_getElem _ _ (show i + 1 < (b.valsWith lv).length by omega),
      List.getD_eq_getElem _ _ (show i < (b.valsWith lv).length by omega)]
    have : 1 + i = i + 1 := by omega
    simp [this]

/-- C1: `end_traj(last_value)` computes the TD residuals
`delta[i] = rewards'[i] + gamma*values'[i+1] - values'[i]` over the open
slice, writes `discount_cumsum(delta, gamma*lam)` into the advantage array
and `discount_cumsum(slice rewards, gamma)` (bootstrap excluded) into the
return array at the slice's global indices, and leaves
`path_start == cursor`. -/
theorem end_traj_meets_spec (b : VPGBuffer O A) (lv : ℝ)
    (h1 : b.path_start_idx ≤ b.ptr) (h2 : b.ptr ≤ b.rew_buf.length)
    (h3 : b.ptr ≤ b.val_buf.length) (h4 : b.ptr ≤ b.phi_buf.length)
    (h5 : b.ptr ≤ b.ret_buf.length) :
    b.deltasOf lv = deltasSpec b lv ∧
    (∀ i < b.ptr - b.path_start_idx,
      (b.end_traj lv).phi_buf.getD (b.path_start_idx + i) 0 =
        (discount_cumsum (deltasSpec b lv) (b.gamma * b.lam)).getD i 0) ∧
    (∀ i < b.ptr - b.path_start_idx,
      (b.end_traj lv).ret_buf.getD (b.path_start_idx + i) 0 =
        (discount_cumsum (sliceOf b.rew_buf b.path_start_idx b.ptr)
          b.gamma).getD i 0) ∧
    (b.end_traj lv).path_start_idx = (b.end_traj lv).ptr := by
  have hds := deltasOf_eq_spec b lv h1 h2 h3
  have hdlen : (deltasSpec b lv).length = b.ptr - b.path_start_idx := by
    simp [deltasSpec]
  refine ⟨hds, ?_, ?_, rfl⟩
  · intro i hi
    have hlen : b.path_start_idx +
        (discount_cumsum (b.deltasOf lv) (b.gamma * b.lam)).length ≤
        b.phi_buf.length := by
      rw [discount_cumsum_length, hds, hdlen]; omega
    have := setSlice_getD_of_mem _ b.phi_buf b.path_start_idx hlen i
      (by rw [discount_cumsum_length, hds, hdlen]; omega)
    simpa [VPGBuffer.end_traj, hds] using this
  · intro i hi
    have hslen : (sliceOf b.rew_buf b.path_start_idx b.ptr).length =
        b.ptr - b.path_start_idx := sliceOf_length _ _ _ h1 h2
    have hlen : b.path_start_idx +
        (discount_cumsum (b.rewsWith lv).dropLast b.gamma).length ≤
        b.ret_buf.length := by
      rw [discount_cumsum_length, rewsWith_dropLast, hslen]; omega
    have := setSlice_getD_of_mem _ b.ret_buf b.path_start_idx hlen i
      (by rw [discount_cumsum_length, rewsWith_dropLast, hslen]; omega)
    simpa [VPGBuffer.end_traj, rewsWith_dropLast] using this

/-- C10: closing an empty trajectory (`path_start == cursor`) changes
nothing: every array and both cursors keep their values, for any
`last_value`. -/
theorem end_traj_empty_slice_noop (b : VPGBuffer O A) (lv : ℝ)
    (h : b.path_start_idx = b.ptr) : b.end_traj lv = b := by
  have h1 : sliceOf b.rew_buf b.path_start_idx b.ptr = [] := by
    unfold sliceOf; rw [h]; simp
  have h2 : sliceOf b.val_buf b.path_start_idx b.ptr = [] := by
    unfold sliceOf; rw [h]; simp
  have hrews : (b.rewsWith lv).dropLast = [] := by
    rw [rewsWith_dropLast, h1]
  have hdeltas : b.deltasOf lv = [] := by
    unfold VPGBuffer.deltasOf
    rw [valsWith_dropLast, h2]
    simp
  unfold VPGBuffer.end_traj
  rw [hdeltas, hrews, discount_cumsum_nil, discount_cumsum_nil]
  cases b with
  | mk obs act phi rew ret val logp g lm ptr ps ms =>
      simp only [setSlice] at *
      simp_all

/-- C2: for `0 ≤ discount ≤ 1`, `discount_cumsum` keeps the length and
returns `y[i] = x[i] + d*x[i+1] + ... + d^(n-i)*x[n]`; for `discount = 0`
the output equals the input, for `discount = 1` each entry is the
undiscounted suffix sum, and `[1,1,1]` with `discount = 1` gives `[3,2,1]`. -/
theorem discount_cumsum_meets_spec (x : List ℝ) (d : ℝ)
    (h0 : 0 ≤ d) (h1 : d ≤ 1) :
    (discount_cumsum x d).length = x.length ∧
    (∀ i < x.length, (discount_cumsum x d).getD i 0 =
      ∑ k ∈ Finset.range (x.length - i), d ^ k * x.getD (i + k) 0) ∧
    (d = 0 → discount_cumsum x d = x) ∧
    (d = 1 → ∀ i < x.length, (discount_cumsum x d).getD i 0 =
      ∑ k ∈ Finset.range (x.length - i), x.getD (i + k) 0) ∧
    discount_cumsum [1, 1, 1] (1 : ℝ) = [3, 2, 1] := by
  refine ⟨discount_cumsum_length x d, discount_cumsum_getD x d, ?_, ?_, ?_⟩
  · intro hd; subst hd; exact discount_cumsum_zero_discount x
  · intro hd; subst hd
    intro i hi
    rw [discount_cumsum_getD x 1 i hi]
    simp
  · norm_num [discount_cumsum_cons, discount_cumsum_nil]

/-- Concrete instantiation of C2's theorem at `x = [1, 2]`, `d = 1/2`. -/
theorem discount_cumsum_meets_spec_witness :
    (0 : ℝ) ≤ 1/2 ∧ (1/2 : ℝ) ≤ 1 ∧
    ((discount_cumsum [1, 2] (1/2)).length = ([1, 2] : List ℝ).length ∧
    (∀ i < ([1, 2] : List ℝ).length, (discount_cumsum [1, 2] (1/2)).getD i 0 =
      ∑ k ∈ Finset.range (([1, 2] : List ℝ).length - i),
        (1/2 : ℝ) ^ k * ([1, 2] : List ℝ).getD (i + k) 0) ∧
    ((1/2 : ℝ) = 0 → discount_cumsum [1, 2] (1/2) = [1, 2]) ∧
    ((1/2 : ℝ) = 1 → ∀ i < ([1, 2] : List ℝ).length,
      (discount_cumsum [1, 2] (1/2)).getD i 0 =
      ∑ k ∈ Finset.range (([1, 2] : List ℝ).length - i),
        ([1, 2] : List ℝ).getD (i + k) 0) ∧
    discount_cumsum [1, 1, 1] (1 : ℝ) = [3, 2, 1]) :=
  ⟨by norm_num, by norm_num,
    discount_cumsum_meets_spec [1, 2] (1/2) (by norm_num) (by norm_num)⟩

/-- C7: `store` fails with the buffer-full assert iff `cursor == capacity`;
otherwise it writes the five transition components at index `cursor` into
the parallel arrays and increments `cursor` by exactly one, leaving
everything else unchanged. -/
theorem store_meets_spec (b : VPGBuffer O A) (o : O) (a : A) (r v lp : ℝ)
    (hp : b.ptr ≤ b.max_size)
    (hobs : b.obs_buf.length = b.max_size)
    (hact : b.act_buf.length = b.max_size)
    (hrew : b.rew_buf.length = b.max_size)
    (hval : b.val_buf.length = b.max_size)
    (hlogp : b.logp_buf.length = b.max_size) :
    (b.store o a r v lp = .error .bufferFull ↔ b.ptr = b.max_size) ∧
    (b.ptr ≠ b.max_size →
      b.store o a r v lp = .ok { b with
        obs_buf := b.obs_buf.set b.ptr o
        act_buf := b.act_buf.set b.ptr a
        rew_buf := b.rew_buf.set b.ptr r
        val_buf := b.val_buf.set b.ptr v
        logp_buf := b.logp_buf.set b.ptr lp
        ptr := b.ptr + 1 }) ∧
    (∀ b', b.store o a r v lp = .ok b' →
      b'.obs_buf[b.ptr]? = some o ∧ b'.act_buf[b.ptr]? = some a ∧
      b'.rew_buf.getD b.ptr 0 = r ∧ b'.val_buf.getD b.ptr 0 = v ∧
      b'.logp_buf.getD b.ptr 0 = lp ∧ b'.ptr = b.ptr + 1 ∧
      b'.path_start_idx = b.path_start_idx ∧ b'.phi_buf = b.phi_buf ∧
      b'.ret_buf = b.ret_buf ∧ b'.max_size = b.max_size) := by
  by_cases hlt : b.ptr < b.max_size
  · refine ⟨?_, ?_, ?_⟩
    · rw [VPGBuffer.store, if_pos hlt]
      constructor
      · intro h; exact absurd h (by simp)
      · intro h; omega
    · intro _; rw [VPGBuffer.store, if_pos hlt]
    · intro b' hb'
      rw [VPGBuffer.store, if_pos hlt] at hb'
      injection hb' with hb'
      subst hb'
      have hoptr : b.ptr < b.obs_buf.length := by omega
      have haptr : b.ptr < b.act_buf.length := by omega
      refine ⟨?_, ?_, ?_, ?_, ?_, rfl, rfl, rfl, rfl, rfl⟩
      · rw [List.getElem?_eq_getElem (by simpa using hoptr)]
        exact congrArg some (List.getElem_set_self (by simpa using hoptr))
      · rw [List.getElem?_eq_getElem (by simpa using haptr)]
        exact congrArg some (List.getElem_set_self (by simpa using haptr))
      · rw [List.getD_eq_getElem _ _ (by simpa using show b.ptr < b.rew_buf.length by omega)]
        exact List.getElem_set_self (by simpa using show b.ptr < b.rew_buf.length by omega)
      · rw [List.getD_eq_getElem _ _ (by simpa using show b.ptr < b.val_buf.length by omega)]
        exact List.getElem_set_self (by simpa using show b.ptr < b.val_buf.length by omega)
      · rw [List.getD_eq_getElem _ _ (by simpa using show b.ptr < b.logp_buf.length by omega)]
        exact List.getElem_set_self (by simpa using show b.ptr < b.logp_buf.length by omega)
  · have heq : b.ptr = b.max_size := by omega
    refine ⟨?_, fun h => absurd heq h, ?_⟩
    · rw [VPGBuffer.store, if_neg hlt]
      simp [heq]
    · intro b' hb'
      rw [VPGBuffer.store, if_neg hlt] at hb'
      exact absurd hb' (by simp)

/-- C5: `get` fails with the buffer-not-full assert iff `cursor != capacity`
(so a second `get` without a full refill fails); on success it rewrites
every advantage entry as `(value - mean) / std` with the epoch-wide mean and
standard deviation, resets both cursors to 0, and returns observations,
actions, returns-to-go, normalized advantages and log-probabilities, each at
the full epoch length. -/
theorem get_meets_spec (b : VPGBuffer O A)
    (hobs : b.obs_buf.length = b.max_size)
    (hact : b.act_buf.length = b.max_size)
    (hret : b.ret_buf.length = b.max_size)
    (hphi : b.phi_buf.length = b.max_size)
    (hlogp : b.logp_buf.length = b.max_size) :
    (b.get = .error .bufferNotFull ↔ b.ptr ≠ b.max_size) ∧
    (∀ b' dat, b.get = .ok (b', dat) →
      b'.ptr = 0 ∧ b'.path_start_idx = 0 ∧
      b'.phi_buf = b.phi_buf.map
        (fun x => (x - npMean b.phi_buf) / npStd b.phi_buf) ∧
      (∀ i < b.max_size, b'.phi_buf.getD i 0 =
        (b.phi_buf.getD i 0 - npMean b.phi_buf) / npStd b.phi_buf) ∧
      dat.obs = b.obs_buf ∧ dat.act = b.act_buf ∧ dat.ret = b.ret_buf ∧
      dat.phi = b'.phi_buf ∧ dat.logp = b.logp_buf ∧
      dat.obs.length = b.max_size ∧ dat.act.length = b.max_size ∧
      dat.ret.length = b.max_size ∧ dat.phi.length = b.max_size ∧
      dat.logp.length = b.max_size ∧
      (0 < b.max_size → b'.get = .error .bufferNotFull)) := by
  by_cases hptr : b.ptr = b.max_size
  · constructor
    · rw [VPGBuffer.get, if_pos hptr]
      constructor
      · intro h; exact absurd h (by simp)
      · intro h; exact absurd hptr h
    · intro b' dat hok
      rw [VPGBuffer.get, if_pos hptr] at hok
      injection hok with hok
      have hb' : b' = { b with
          ptr := 0
          path_start_idx := 0
          phi_buf := b.phi_buf.map
            (fun x => (x - npMean b.phi_buf) / npStd b.phi_buf) } := by
        have h := congrArg Prod.fst hok; simpa using h.symm
      have hdat : dat = {
          obs := b.obs_buf
          act := b.act_buf
          ret := b.ret_buf
          phi := b.phi_buf.map
            (fun x => (x - npMean b.phi_buf) / npStd b.phi_buf)
          logp := b.logp_buf } := by
        have h := congrArg Prod.snd hok; simpa using h.symm
      subst hb'; subst hdat
      refine ⟨rfl, rfl, rfl, ?_, rfl, rfl, rfl, rfl, rfl,
        hobs, hact, hret, by simpa using hphi, hlogp, ?_⟩
      · intro i hi
        have hiphi : i < b.phi_buf.length := by omega
        rw [List.getD_eq_getElem _ _ (by simpa using hiphi),
          List.getD_eq_getElem _ _ hiphi]
        simp
      · intro hpos
        rw [VPGBuffer.get, if_neg (show ¬(0 = b.max_size) by omega)]
  · constructor
    · rw [VPGBuffer.get, if_neg hptr]
      simp [hptr]
    · intro b' dat hok
      rw [VPGBuffer.get, if_neg hptr] at hok
      exact absurd hok (by simp)

/-- A degenerate epoch for C6: every advantage estimate is identical
(here the zeroed buffer contents), so the epoch-wide std is zero. -/
def bDeg : VPGBuffer ℕ ℕ :=
  { obs_buf := [0, 0], act_buf := [0, 0], phi_buf := [0, 0],
    rew_buf := [0, 0], ret_buf := [0, 0], val_buf := [0, 0],
    logp_buf := [0, 0], gamma := 1, lam := 1,
    ptr := 2, path_start_idx := 2, max_size := 2 }

/-- C6: evaluation of `get` at a degenerate epoch (all advantage estimates
identical). The epoch-wide standard deviation is exactly 0 and the source
divides by it directly: the denominator of the advantage rewrite is the
bare std, 0 here — the claimed epsilon floor is absent from the code. -/
theorem get_degenerate_std_unguarded :
    npStd bDeg.phi_buf = 0 ∧
    bDeg.get = .ok
      ({ bDeg with
          ptr := 0
          path_start_idx := 0
          phi_buf := bDeg.phi_buf.map
            (fun x => (x - npMean bDeg.phi_buf) / npStd bDeg.phi_buf) },
        {
          obs := bDeg.obs_buf
          act := bDeg.act_buf
          ret := bDeg.ret_buf
          phi := bDeg.phi_buf.map
            (fun x => (x - npMean bDeg.phi_buf) / npStd bDeg.phi_buf)
          logp := bDeg.logp_buf }) ∧
    bDeg.phi_buf.map
        (fun x => (x - npMean bDeg.phi_buf) / npStd bDeg.phi_buf) =
      bDeg.phi_buf.map (fun x => (x - npMean bDeg.phi_buf) / 0) := by
  have hmean : npMean bDeg.phi_buf = 0 := by
    simp [npMean, bDeg]
  have hstd : npStd bDeg.phi_buf = 0 := by
    simp [npStd, hmean, npMean, bDeg]
  refine ⟨hstd, ?_, by rw [hstd]⟩
  rw [VPGBuffer.get, if_pos (show bDeg.ptr = bDeg.max_size from rfl)]

/-- `MLPActorCritic.step` (`solution.py` lines 100-118), with the stochastic
`distr.sample()` calls made explicit as oracle inputs in call order: the
first `sample()` result is `sample1`, the second (line 117, re-assigned to
`act` just before returning) is `sample2`. The policy distribution at the
given state is represented by its log-probability function `logProbOf`
(what `Categorical.log_prob` computes), and `valueAt` is `self.v(state)`.
The body binds `act` to the first sample, computes `log_prob` for that
`act` via `pi.forward(state, act)`, then overwrites `act` with a fresh
sample and returns it. -/
def mlpStep (logProbOf : A → ℝ) (valueAt : ℝ) (sample1 sample2 : A) :
    A × ℝ × ℝ :=
  let act := sample1
  let value_at_state := valueAt
  let log_prob := logProbOf act
  let act2 := sample2
  (act2, value_at_state, log_prob)

/-- The log-probability function of a concrete (non-degenerate) categorical
policy distribution for C4's failing input: actions 0 and 1 carry different
log-probabilities. -/
def lpC4 : ℕ → ℝ := fun a => if a = 0 then -1 else -2

/-- C4: evaluation of `MLPActorCritic.step` at a failing input. When the two
`sample()` draws differ (first draw 0, second draw 1), the returned action
is the second draw but the returned log-probability belongs to the first
draw: the pair refers to two different samples, so the returned
log-probability (-1) is not the log-probability of the returned action
(-2). -/
theorem mlpStep_logp_mismatch :
    mlpStep lpC4 0 0 1 = (1, 0, -1) ∧
    lpC4 (mlpStep lpC4 0 0 1).1 = -2 ∧
    (mlpStep lpC4 0 0 1).2.2 ≠ lpC4 (mlpStep lpC4 0 0 1).1 := by
  refine ⟨rfl, rfl, ?_⟩
  show (-1 : ℝ) ≠ -2
  norm_num

/-- Optimizer-visible events inside an update function. -/
inductive OptEv where
  | zeroGrad
  | backward
  | stepOpt
deriving DecidableEq

/-- `torch.mean` of a 1-d tensor: sum over count. -/
noncomputable def tmean (l : List ℝ) : ℝ := l.sum / l.length

/-- `Agent.pi_update` (`solution.py` lines 217-239), with the policy's
batched log-probability recomputation `self.ac.pi.forward(obs, act=act)`
abstracted as the current-parameter log-probability function `logProbFn`
applied elementwise: `zero_grad`, then `loss = -(phi * log_pb).mean()`,
then `backward`, then one optimizer step. Returns the loss value and the
optimizer event trace. -/
noncomputable def pi_update (logProbFn : O → A → ℝ) (dat : BufData O A) :
    ℝ × List OptEv :=
  let log_pb := List.zipWith logProbFn dat.obs dat.act
  let g := List.zipWith (fun x y => x * y) dat.phi log_pb
  let loss := -(tmean g)
  (loss, [OptEv.zeroGrad, OptEv.backward, OptEv.stepOpt])

/-- The environment collaborator: `reset` results are indexed by reset
count, `step` responses by a global step counter, so every possible
deterministic schedule of environment responses is a value of this type.
`stepFn` returns `(next_state, reward, terminal, truncated)`. -/
structure EnvModel (S : Type) (A : Type) where
  resetFn : ℕ → S
  stepFn : ℕ → S → A → S × ℝ × Bool × Bool

/-- The actor-critic collaborator as used by `Agent.train`:
`stepFn` is `self.ac.step` (action, value estimate, log-probability) and
`logProbFn` is the batched log-probability recomputation used in
`pi_update`. -/
structure ACModel (S : Type) (A : Type) where
  stepFn : S → A × ℝ × ℝ
  logProbFn : S → A → ℝ

/-- The training parameters of `Agent.train` (`solution.py` lines 280-289). -/
structure TrainCfg where
  steps_per_epoch : ℕ
  epochs : ℕ
  max_ep_len : ℕ
  gamma : ℝ
  lam : ℝ

/-- The concrete configuration in the source: 3000 steps per epoch,
50 epochs, episode cap 300. (`gamma = 0.99` and `lam = 0.97` are
99/100 and 97/100 as exact reals.) -/
noncomputable def sourceCfg : TrainCfg :=
  { steps_per_epoch := 3000, epochs := 50, max_ep_len := 300,
    gamma := 99 / 100, lam := 97 / 100 }

/-- Observable events of the training loop: `storeE i` records a
`buf.store` call landing at cursor `i`, `endTrajE v` a `buf.end_traj(v)`
call, `getE p` a `buf.get()` call made while the cursor was `p`, and
`piE` / `vE` the policy and value update calls. -/
inductive Ev where
  | storeE (i : ℕ)
  | endTrajE (v : ℝ)
  | getE (p : ℕ)
  | piE
  | vE

/-- The mutable state threaded through `Agent.train`'s loops: the current
observation, episode return and length, the buffer, and call counters for
the environment oracles. -/
structure LoopSt (S A : Type) where
  state : S
  ep_ret : ℝ
  ep_len : ℕ
  buf : VPGBuffer S A
  envSteps : ℕ
  envResets : ℕ

/-- One iteration of the inner loop of `Agent.train`
(`solution.py` lines 303-328) at loop index `t`: query `ac.step`, step the
environment, store the transition, then on `terminal or timeout or
epoch_ended` choose the bootstrap value (`ac.step` value at the current
observation if `epoch_ended`, else 0), close the trajectory and reset the
environment. -/
def trainStep (cfg : TrainCfg) (env : EnvModel S A) (ac : ACModel S A)
    (t : ℕ) (st : LoopSt S A) : Except BufErr (LoopSt S A × List Ev) :=
  let avl := ac.stepFn st.state
  let a := avl.1
  let v := avl.2.1
  let logp := avl.2.2
  let sr := env.stepFn st.envSteps st.state a
  let next_state := sr.1
  let reward := sr.2.1
  let terminal := sr.2.2.1
  match st.buf.store st.state a reward v logp with
  | .error e => .error e
  | .ok buf1 =>
    let st1 : LoopSt S A := { st with
      state := next_state
      ep_ret := st.ep_ret + reward
      ep_len := st.ep_len + 1
      buf := buf1
      envSteps := st.envSteps + 1 }
    let timeout := st1.ep_len == cfg.max_ep_len
    let epoch_ended := t == cfg.steps_per_epoch - 1
    if terminal || timeout || epoch_ended then
      let v2 := if epoch_ended then (ac.stepFn st1.state).2.1 else 0
      .ok ({ st1 with
          buf := buf1.end_traj v2
          state := env.resetFn st1.envResets
          ep_ret := 0
          ep_len := 0
          envResets := st1.envResets + 1 },
        [Ev.storeE st.buf.ptr, Ev.endTrajE v2])
    else
      .ok (st1, [Ev.storeE st.buf.ptr])

/-- The inner loop `for t in range(steps_per_epoch)` of `Agent.train`,
running iterations `t, t+1, ..., t+fuel-1` and concatenating their event
traces. -/
def runInner (cfg : TrainCfg) (env : EnvModel S A) (ac : ACModel S A) :
    ℕ → ℕ → LoopSt S A → Except BufErr (LoopSt S A × List Ev)
  | 0, _, st => .ok (st, [])
  | fuel + 1, t, st =>
    match trainStep cfg env ac t st with
    | .error e => .error e
    | .ok (st1, e1) =>
      match runInner cfg env ac fuel (t + 1) st1 with
      | .error e => .error e
      | .ok (st2, e2) => .ok (st2, e1 ++ e2)

/-- One epoch of `Agent.train` (`solution.py` lines 301-340): the inner
loop over `steps_per_epoch` steps, then `data = buf.get()`, then
`pi_update(data)`, then `v_update(data)`, in that order. -/
noncomputable def runEpoch (cfg : TrainCfg) (env : EnvModel S A)
    (ac : ACModel S A) (st : LoopSt S A) :
    Except BufErr (LoopSt S A × List Ev) :=
  match runInner cfg env ac cfg.steps_per_epoch 0 st with
  | .error e => .error e
  | .ok (st1, evs) =>
    match st1.buf.get with
    | .error e => .error e
    | .ok (buf2, _data) =>
      .ok ({ st1 with buf := buf2 },
        evs ++ [Ev.getE st1.buf.ptr, Ev.piE, Ev.vE])

/-- The epoch loop of `Agent.train`, collecting each epoch's event trace. -/
noncomputable def runTrain (cfg : TrainCfg) (env : EnvModel S A)
    (ac : ACModel S A) :
    ℕ → LoopSt S A → Except BufErr (LoopSt S A × List (List Ev))
  | 0, st => .ok (st, [])
  | n + 1, st =>
    match runEpoch cfg env ac st with
    | .error e => .error e
    | .ok (st1, tr) =>
      match runTrain cfg env ac n st1 with
      | .error e => .error e
      | .ok (st2, trs) => .ok (st2, tr :: trs)

/-- The initial loop state of `Agent.train`: a fresh zeroed buffer of
capacity `steps_per_epoch` (line 292) and
`state, ep_ret, ep_len = env.reset()[0], 0, 0` (line 298). -/
def initLoopSt (cfg : TrainCfg) (env : EnvModel S A) (s0 : S) (a0 : A) :
    LoopSt S A :=
  { state := env.resetFn 0
    ep_ret := 0
    ep_len := 0
    buf := VPGBuffer.init s0 a0 cfg.steps_per_epoch cfg.gamma cfg.lam
    envSteps := 0
    envResets := 1 }

/-- `Agent.train` over abstract collaborators: run `epochs` epochs from the
initial state. `s0`/`a0` stand for the zero observation/action entries of
the numpy arrays. -/
noncomputable def agentTrain (cfg : TrainCfg) (env : EnvModel S A)
    (ac : ACModel S A) (s0 : S) (a0 : A) :
    Except BufErr (LoopSt S A × List (List Ev)) :=
  runTrain cfg env ac cfg.epochs (initLoopSt cfg env s0 a0)

/-- The cursor positions recorded by the `store` events of a trace. -/
def storeIdxs (evs : List Ev) : List ℕ :=
  evs.filterMap fun e =>
    match e with
    | Ev.storeE i => some i
    | _ => none

theorem store_ok_of_lt (b : VPGBuffer O A) (o : O) (a : A) (r v lp : ℝ)
    (h : b.ptr < b.max_size) :
    b.store o a r v lp = .ok { b with
      obs_buf := b.obs_buf.set b.ptr o
      act_buf := b.act_buf.set b.ptr a
      rew_buf := b.rew_buf.set b.ptr r
      val_buf := b.val_buf.set b.ptr v
      logp_buf := b.logp_buf.set b.ptr lp
      ptr := b.ptr + 1 } := by
  rw [VPGBuffer.store, if_pos h]

theorem get_ok_of_eq (b : VPGBuffer O A) (h : b.ptr = b.max_size) :
    b.get = .ok ({ b with
        ptr := 0
        path_start_idx := 0
        phi_buf := b.phi_buf.map
          (fun x => (x - npMean b.phi_buf) / npStd b.phi_buf) },
      {
        obs := b.obs_buf
        act := b.act_buf
        ret := b.ret_buf
        phi := b.phi_buf.map
          (fun x => (x - npMean b.phi_buf) / npStd b.phi_buf)
        logp := b.logp_buf }) := by
  rw [VPGBuffer.get, if_pos h]

/-- `trainStep` when the buffer has room: the store succeeds, the cursor
advances by one, the capacity is unchanged, the events are a single store
event optionally followed by one trajectory close, and the close is
guaranteed on the last loop index of the epoch. -/
theorem trainStep_ok (cfg : TrainCfg) (env : EnvModel S A) (ac : ACModel S A)
    (t : ℕ) (st : LoopSt S A) (h : st.buf.ptr < st.buf.max_size) :
    ∃ st1 evs, trainStep cfg env ac t st = .ok (st1, evs) ∧
      st1.buf.ptr = st.buf.ptr + 1 ∧
      st1.buf.max_size = st.buf.max_size ∧
      (evs = [Ev.storeE st.buf.ptr] ∨
        ∃ v2, evs = [Ev.storeE st.buf.ptr, Ev.endTrajE v2]) ∧
      ((t == cfg.steps_per_epoch - 1) = true →
        ∃ v2, evs = [Ev.storeE st.buf.ptr, Ev.endTrajE v2]) := by
  simp only [trainStep, store_ok_of_lt _ _ _ _ _ _ h]
  by_cases hc : ((env.stepFn st.envSteps st.state (ac.stepFn st.state).1).2.2.1
      || (st.ep_len + 1 == cfg.max_ep_len)
      || (t == cfg.steps_per_epoch - 1)) = true
  · rw [if_pos hc]
    refine ⟨_, _, rfl, ?_, ?_, ?_, ?_⟩
    · simp [end_traj_ptr]
    · simp [end_traj_max_size]
    · right; exact ⟨_, rfl⟩
    · intro _; exact ⟨_, rfl⟩
  · rw [if_neg hc]
    refine ⟨_, _, rfl, rfl, rfl, Or.inl rfl, ?_⟩
    intro hlast
    exfalso
    apply hc
    rw [hlast]
    simp

theorem store_error_of_not_lt (b : VPGBuffer O A) (o : O) (a : A)
    (r v lp : ℝ) (h : ¬ b.ptr < b.max_size) :
    b.store o a r v lp = .error .bufferFull := by
  rw [VPGBuffer.store, if_neg h]

theorem trainStep_events (cfg : TrainCfg) (env : EnvModel S A)
    (ac : ACModel S A) (t : ℕ) (st st1 : LoopSt S A) (evs : List Ev)
    (h : trainStep cfg env ac t st = .ok (st1, evs)) :
    evs = [Ev.storeE st.buf.ptr] ∨
      ∃ v2, evs = [Ev.storeE st.buf.ptr, Ev.endTrajE v2] := by
  by_cases hlt : st.buf.ptr < st.buf.max_size
  · obtain ⟨st1', evs', heq, _, _, hsh, _⟩ := trainStep_ok cfg env ac t st hlt
    rw [heq] at h
    injection h with h
    have hevs : evs' = evs := congrArg Prod.snd h
    rw [← hevs]
    exact hsh
  · rw [trainStep] at h
    simp only [store_error_of_not_lt _ _ _ _ _ _ hlt] at h
    exact Except.noConfusion h

/-- The invariant of the inner loop: starting at loop index `t` with the
cursor at `t`, running the remaining `fuel = steps_per_epoch - t`
iterations succeeds, leaves the cursor at the capacity, emits store events
at exactly the cursor positions `t, t+1, ...`, and ends with the store at
`steps_per_epoch - 1` immediately followed by a trajectory close. -/
theorem runInner_spec (cfg : TrainCfg) (env : EnvModel S A)
    (ac : ACModel S A) :
    ∀ (fuel t : ℕ) (st : LoopSt S A),
      0 < fuel → t + fuel = cfg.steps_per_epoch →
      st.buf.ptr = t → st.buf.max_size = cfg.steps_per_epoch →
      ∃ st' evs pre v2,
        runInner cfg env ac fuel t st = .ok (st', evs) ∧
        st'.buf.ptr = cfg.steps_per_epoch ∧
        st'.buf.max_size = cfg.steps_per_epoch ∧
        storeIdxs evs = List.range' t fuel ∧
        evs = pre ++ [Ev.storeE (cfg.steps_per_epoch - 1), Ev.endTrajE v2] := by
  intro fuel
  induction fuel with
  | zero => intro t st h0 _ _ _; omega
  | succ f ihf =>
      intro t st _ hsum hptr hmax
      have hlt : st.buf.ptr < st.buf.max_size := by omega
      obtain ⟨st1, evs1, hstep, hptr1, hmax1, hsh, hlast⟩ :=
        trainStep_ok cfg env ac t st hlt
      cases f with
      | zero =>
          have hepoch : (t == cfg.steps_per_epoch - 1) = true := by
            have ht : t = cfg.steps_per_epoch - 1 := by omega
            simpa using ht
          obtain ⟨v2, hevs⟩ := hlast hepoch
          refine ⟨st1, evs1 ++ [], [], v2, ?_, by omega, by omega, ?_, ?_⟩
          · simp only [runInner, hstep]
          · rw [hevs]
            have ht : t = cfg.steps_per_epoch - 1 := by omega
            simp [storeIdxs, List.range'_one, hptr, ht]
          · rw [hevs]
            have ht : st.buf.ptr = cfg.steps_per_epoch - 1 := by omega
            simp [ht]
      | succ f' =>
          obtain ⟨st', evs2, pre2, v2, hrun, hptr', hmax', hidx, hpat⟩ :=
            ihf (t + 1) st1 (by omega) (by omega) (by omega) (by omega)
          refine ⟨st', evs1 ++ evs2, evs1 ++ pre2, v2, ?_, hptr', hmax', ?_, ?_⟩
          · have hre : runInner cfg env ac (f' + 1 + 1) t st =
                match trainStep cfg env ac t st with
                | .error e => .error e
                | .ok (stm, e1) =>
                  match runInner cfg env ac (f' + 1) (t + 1) stm with
                  | .error e => .error e
                  | .ok (st2, e2) => .ok (st2, e1 ++ e2) := rfl
            rw [hre]
            simp only [hstep, hrun]
          · rw [storeIdxs, List.filterMap_append, ← storeIdxs, ← storeIdxs,
              hidx, List.range'_succ]
            rcases hsh with h1 | ⟨v3, h1⟩ <;>
              simp [h1, storeIdxs, hptr, List.range'_succ]
          · rw [hpat]; simp

/-- Recognizer for policy-update events. -/
def isPiEv (e : Ev) : Bool :=
  match e with
  | Ev.piE => true
  | _ => false

theorem runInner_no_piE (cfg : TrainCfg) (env : EnvModel S A)
    (ac : ACModel S A) :
    ∀ (fuel t : ℕ) (st st' : LoopSt S A) (evs : List Ev),
      runInner cfg env ac fuel t st = .ok (st', evs) →
      evs.countP isPiEv = 0 := by
  intro fuel
  induction fuel with
  | zero =>
      intro t st st' evs h
      rw [runInner] at h
      injection h with h
      have : ([] : List Ev) = evs := congrArg Prod.snd h
      rw [← this]
      rfl
  | succ f ih =>
      intro t st st' evs h
      rw [runInner] at h
      cases hstep : trainStep cfg env ac t st with
      | error e => rw [hstep] at h; exact Except.noConfusion h
      | ok p =>
          obtain ⟨st1, evs1⟩ := p
          simp only [hstep] at h
          cases hrun : runInner cfg env ac f (t + 1) st1 with
          | error e => rw [hrun] at h; exact Except.noConfusion h
          | ok q =>
              obtain ⟨st2, evs2⟩ := q
              simp only [hrun] at h
              injection h with h
              have hevs : evs1 ++ evs2 = evs := congrArg Prod.snd h
              rw [← hevs, List.countP_append]
              have h2 : evs2.countP isPiEv = 0 := ih (t + 1) st1 st2 evs2 hrun
              have h1 : evs1.countP isPiEv = 0 := by
                rcases trainStep_events cfg env ac t st st1 evs1 hstep with
                  he | ⟨v2, he⟩ <;> simp [he, isPiEv]
              omega

/-- The structure of one full epoch: the inner loop succeeds, `get`
succeeds (the cursor is at capacity when it is called, as the recorded
`getE` event shows), both cursors are reset, and the epoch's events end
with the last store, the trajectory close, the `get`, the policy update
and the value update, in that order. -/
theorem runEpoch_spec (cfg : TrainCfg) (env : EnvModel S A)
    (ac : ACModel S A) (st : LoopSt S A) (hpos : 0 < cfg.steps_per_epoch)
    (hptr : st.buf.ptr = 0) (hmax : st.buf.max_size = cfg.steps_per_epoch) :
    ∃ st' evs pre v2,
      runEpoch cfg env ac st = .ok (st', evs) ∧
      st'.buf.ptr = 0 ∧ st'.buf.path_start_idx = 0 ∧
      st'.buf.max_size = cfg.steps_per_epoch ∧
      storeIdxs evs = List.range cfg.steps_per_epoch ∧
      evs = pre ++ [Ev.storeE (cfg.steps_per_epoch - 1), Ev.endTrajE v2,
        Ev.getE cfg.steps_per_epoch, Ev.piE, Ev.vE] := by
  obtain ⟨st1, evs1, pre, v2, hrun, hptr1, hmax1, hidx, hpat⟩ :=
    runInner_spec cfg env ac cfg.steps_per_epoch 0 st hpos (by omega)
      hptr hmax
  have hget := get_ok_of_eq st1.buf (by omega)
  have heq : runEpoch cfg env ac st = .ok ({ st1 with buf := { st1.buf with
      ptr := 0
      path_start_idx := 0
      phi_buf := st1.buf.phi_buf.map
        (fun x => (x - npMean st1.buf.phi_buf) / npStd st1.buf.phi_buf) } },
      evs1 ++ [Ev.getE st1.buf.ptr, Ev.piE, Ev.vE]) := by
    rw [runEpoch]
    simp only [hrun, hget]
  refine ⟨_, _, pre, v2, heq, rfl, rfl, ?_, ?_, ?_⟩
  · simpa using hmax1
  · rw [storeIdxs, List.filterMap_append, ← storeIdxs, ← storeIdxs, hidx]
    simp [storeIdxs, List.range_eq_range']
  · rw [hpat, hptr1]
    simp

theorem runEpoch_piE_once (cfg : TrainCfg) (env : EnvModel S A)
    (ac : ACModel S A) (st st' : LoopSt S A) (evs : List Ev)
    (h : runEpoch cfg env ac st = .ok (st', evs)) :
    evs.countP isPiEv = 1 := by
  rw [runEpoch] at h
  cases hrun : runInner cfg env ac cfg.steps_per_epoch 0 st with
  | error e => rw [hrun] at h; exact Except.noConfusion h
  | ok p =>
      obtain ⟨st1, evs1⟩ := p
      simp only [hrun] at h
      cases hget : st1.buf.get with
      | error e => rw [hget] at h; exact Except.noConfusion h
      | ok q =>
          obtain ⟨buf2, dat⟩ := q
          simp only [hget] at h
          injection h with h
          have hevs : evs1 ++ [Ev.getE st1.buf.ptr, Ev.piE, Ev.vE] = evs :=
            congrArg Prod.snd h
          rw [← hevs, List.countP_append,
            runInner_no_piE cfg env ac _ _ _ _ _ hrun]
          rfl

theorem runTrain_spec (cfg : TrainCfg) (env : EnvModel S A)
    (ac : ACModel S A) (hpos : 0 < cfg.steps_per_epoch) :
    ∀ (n : ℕ) (st : LoopSt S A),
      st.buf.ptr = 0 → st.buf.max_size = cfg.steps_per_epoch →
      ∃ fin trs, runTrain cfg env ac n st = .ok (fin, trs) ∧
        trs.length = n ∧
        ∀ tr ∈ trs, storeIdxs tr = List.range cfg.steps_per_epoch ∧
          ∃ pre v2, tr = pre ++ [Ev.storeE (cfg.steps_per_epoch - 1),
            Ev.endTrajE v2, Ev.getE cfg.steps_per_epoch, Ev.piE, Ev.vE] := by
  intro n
  induction n with
  | zero =>
      intro st h1 h2
      exact ⟨st, [], rfl, rfl, by simp⟩
  | succ m ih =>
      intro st h1 h2
      obtain ⟨st1, evs, pre, v2, hep, hptr1, _hpath1, hmax1, hidx, hpat⟩ :=
        runEpoch_spec cfg env ac st hpos h1 h2
      obtain ⟨fin, trs, hrt, hlen, hall⟩ := ih st1 hptr1 hmax1
      refine ⟨fin, evs :: trs, ?_, by simp [hlen], ?_⟩
      · rw [runTrain]
        simp only [hep, hrt]
      · intro tr htr
        rcases List.mem_cons.mp htr with h | h
        · subst h; exact ⟨hidx, pre, v2, hpat⟩
        · exact hall tr h

/-- C9: in every epoch of `train`, for every environment and actor-critic
oracle, the trainer stores at cursor positions `0, ..., steps_per_epoch-1`
exactly (so `store` is called exactly `steps_per_epoch` times and the
cursor, reset only at `get`, climbs monotonically), the last step of the
epoch triggers `end_traj` immediately after the last store, and only then
is `get` called — while the cursor equals the capacity, as the `getE`
event records — followed by the policy update and then the value update. -/
theorem train_loop_meets_spec (cfg : TrainCfg) (env : EnvModel S A)
    (ac : ACModel S A) (s0 : S) (a0 : A)
    (hpos : 0 < cfg.steps_per_epoch) :
    ∃ fin trs, agentTrain cfg env ac s0 a0 = .ok (fin, trs) ∧
      trs.length = cfg.epochs ∧
      ∀ tr ∈ trs, storeIdxs tr = List.range cfg.steps_per_epoch ∧
        ∃ pre v2, tr = pre ++ [Ev.storeE (cfg.steps_per_epoch - 1),
          Ev.endTrajE v2, Ev.getE cfg.steps_per_epoch, Ev.piE, Ev.vE] :=
  runTrain_spec cfg env ac hpos cfg.epochs (initLoopSt cfg env s0 a0) rfl rfl

/-- A small configuration exercising the timeout branch: 2 steps per epoch
with episode cap 1, so the very first step (`t = 0`, not the epoch's last
step) hits `ep_len == max_ep_len`. -/
def cfgC3 : TrainCfg :=
  { steps_per_epoch := 2, epochs := 1, max_ep_len := 1, gamma := 1, lam := 1 }

/-- An environment that never reports termination (state counts steps). -/
def envC3 : EnvModel ℕ ℕ :=
  { resetFn := fun _ => 0, stepFn := fun _ s _ => (s + 1, 0, false, false) }

/-- An actor-critic whose value estimate is 5 at every observation. -/
def acC3 : ACModel ℕ ℕ :=
  { stepFn := fun _ => (0, 5, 0), logProbFn := fun _ _ => 0 }

/-- C3: evaluation of the training loop at a failing input. At `t = 0` the
trajectory closes because of the `max_episode_length` timeout alone (no
true termination, not the epoch's last step), and the code passes bootstrap
value 0 to `end_traj` — although the value estimate at the current (next)
observation is 5 ≠ 0, which is what the claim says should be passed for a
timeout truncation. -/
theorem timeout_bootstrap_is_zero :
    (trainStep cfgC3 envC3 acC3 0 (initLoopSt cfgC3 envC3 0 0)).map
        Prod.snd = .ok [Ev.storeE 0, Ev.endTrajE 0] ∧
    (acC3.stepFn 1).2.1 = 5 ∧ ((0 : ℝ) ≠ 5) :=
  ⟨rfl, rfl, by norm_num⟩

theorem list_sum_eq_sum_getD (l : List ℝ) :
    l.sum = ∑ i ∈ Finset.range l.length, l.getD i 0 := by
  induction l with
  | nil => simp
  | cons a rest ih =>
      rw [List.sum_cons, List.length_cons, Finset.sum_range_succ']
      simp only [List.getD_cons_succ, List.getD_cons_zero]
      rw [← ih]
      ring

/-- C8: the policy update's loss is the negative mean over the batch of
`advantage * log_probability`, where each stored action's log-probability
is recomputed under the current policy parameters (`logProbFn`), the update
performs exactly one optimizer step, and each epoch of the training loop
invokes the policy update exactly once. -/
theorem pi_update_meets_spec (s0 : S) (a0 : A)
    (lp : S → A → ℝ) (dat : BufData S A) (n : ℕ)
    (hobs : dat.obs.length = n) (hact : dat.act.length = n)
    (hphi : dat.phi.length = n) :
    (pi_update lp dat).1 =
      -((∑ i ∈ Finset.range n,
        dat.phi.getD i 0 * lp (dat.obs.getD i s0) (dat.act.getD i a0)) / n) ∧
    (pi_update lp dat).2.countP
      (fun e => match e with | OptEv.stepOpt => true | _ => false) = 1 ∧
    (∀ (cfg : TrainCfg) (env : EnvModel S A) (ac : ACModel S A)
      (st st' : LoopSt S A) (evs : List Ev),
      runEpoch cfg env ac st = .ok (st', evs) →
      evs.countP isPiEv = 1) := by
  have hlp : (List.zipWith lp dat.obs dat.act).length = n := by
    simp [hobs, hact]
  have hg : (List.zipWith (fun x y => x * y) dat.phi
      (List.zipWith lp dat.obs dat.act)).length = n := by
    simp [hphi, hobs, hact]
  refine ⟨?_, rfl, ?_⟩
  · simp only [pi_update, tmean]
    rw [list_sum_eq_sum_getD, hg]
    congr 1
    congr 1
    apply Finset.sum_congr rfl
    intro i hi
    have hin : i < n := Finset.mem_range.mp hi
    rw [List.getD_eq_getElem _ _ (by omega : i < (List.zipWith
      (fun x y => x * y) dat.phi (List.zipWith lp dat.obs dat.act)).length)]
    rw [List.getElem_zipWith, List.getElem_zipWith]
    rw [List.getD_eq_getElem _ _ (by omega : i < dat.phi.length),
      List.getD_eq_getElem _ _ (by omega : i < dat.obs.length),
      List.getD_eq_getElem _ _ (by omega : i < dat.act.length)]
  · intro cfg env ac st st' evs h
    exact runEpoch_piE_once cfg env ac st st' evs h

/-- A concrete full buffer holding one open two-step trajectory. -/
def bW1 : VPGBuffer ℕ ℕ :=
  { obs_buf := [0, 0], act_buf := [0, 0], phi_buf := [0, 0],
    rew_buf := [1, 2], ret_buf := [0, 0], val_buf := [0, 0],
    logp_buf := [0, 0], gamma := 1, lam := 1,
    ptr := 2, path_start_idx := 0, max_size := 2 }

/-- Concrete instantiation of C1's theorem at `bW1`, `last_value = 7`. -/
theorem end_traj_meets_spec_witness :
    (bW1.path_start_idx ≤ bW1.ptr ∧ bW1.ptr ≤ bW1.rew_buf.length ∧
     bW1.ptr ≤ bW1.val_buf.length ∧ bW1.ptr ≤ bW1.phi_buf.length ∧
     bW1.ptr ≤ bW1.ret_buf.length) ∧
    (bW1.deltasOf 7 = deltasSpec bW1 7 ∧
     (∀ i < bW1.ptr - bW1.path_start_idx,
       (bW1.end_traj 7).phi_buf.getD (bW1.path_start_idx + i) 0 =
         (discount_cumsum (deltasSpec bW1 7) (bW1.gamma * bW1.lam)).getD i 0) ∧
     (∀ i < bW1.ptr - bW1.path_start_idx,
       (bW1.end_traj 7).ret_buf.getD (bW1.path_start_idx + i) 0 =
         (discount_cumsum (sliceOf bW1.rew_buf bW1.path_start_idx bW1.ptr)
           bW1.gamma).getD i 0) ∧
     (bW1.end_traj 7).path_start_idx = (bW1.end_traj 7).ptr) :=
  ⟨⟨by decide, by decide, by decide, by decide, by decide⟩,
    end_traj_meets_spec bW1 7 (by decide) (by decide) (by decide)
      (by decide) (by decide)⟩

/-- A concrete full buffer with non-degenerate advantages for C5. -/
def bW5 : VPGBuffer ℕ ℕ :=
  { obs_buf := [0, 0], act_buf := [0, 0], phi_buf := [1, -1],
    rew_buf := [0, 0], ret_buf := [0, 0], val_buf := [0, 0],
    logp_buf := [0, 0], gamma := 1, lam := 1,
    ptr := 2, path_start_idx := 2, max_size := 2 }

/-- Concrete instantiation of C5's theorem at `bW5`. -/
theorem get_meets_spec_witness :
    (bW5.obs_buf.length = bW5.max_size ∧
     bW5.act_buf.length = bW5.max_size ∧
     bW5.ret_buf.length = bW5.max_size ∧
     bW5.phi_buf.length = bW5.max_size ∧
     bW5.logp_buf.length = bW5.max_size) ∧
    ((bW5.get = .error .bufferNotFull ↔ bW5.ptr ≠ bW5.max_size) ∧
    (∀ b' dat, bW5.get = .ok (b', dat) →
      b'.ptr = 0 ∧ b'.path_start_idx = 0 ∧
      b'.phi_buf = bW5.phi_buf.map
        (fun x => (x - npMean bW5.phi_buf) / npStd bW5.phi_buf) ∧
      (∀ i < bW5.max_size, b'.phi_buf.getD i 0 =
        (bW5.phi_buf.getD i 0 - npMean bW5.phi_buf) / npStd bW5.phi_buf) ∧
      dat.obs = bW5.obs_buf ∧ dat.act = bW5.act_buf ∧
      dat.ret = bW5.ret_buf ∧ dat.phi = b'.phi_buf ∧
      dat.logp = bW5.logp_buf ∧
      dat.obs.length = bW5.max_size ∧ dat.act.length = bW5.max_size ∧
      dat.ret.length = bW5.max_size ∧ dat.phi.length = bW5.max_size ∧
      dat.logp.length = bW5.max_size ∧
      (0 < bW5.max_size → b'.get = .error .bufferNotFull))) :=
  ⟨⟨by decide, by decide, by decide, by decide, by decide⟩,
    get_meets_spec bW5 (by decide) (by decide) (by decide) (by decide)
      (by decide)⟩

/-- A concrete buffer with one free slot for C7. -/
def bW7 : VPGBuffer ℕ ℕ :=
  { obs_buf := [0, 0], act_buf := [0, 0], phi_buf := [0, 0],
    rew_buf := [0, 0], ret_buf := [0, 0], val_buf := [0, 0],
    logp_buf := [0, 0], gamma := 1, lam := 1,
    ptr := 1, path_start_idx := 0, max_size := 2 }

/-- Concrete instantiation of C7's theorem at `bW7`. -/
theorem store_meets_spec_witness :
    (bW7.ptr ≤ bW7.max_size ∧
     bW7.obs_buf.length = bW7.max_size ∧
     bW7.act_buf.length = bW7.max_size ∧
     bW7.rew_buf.length = bW7.max_size ∧
     bW7.val_buf.length = bW7.max_size ∧
     bW7.logp_buf.length = bW7.max_size) ∧
    ((bW7.store 3 1 4 5 6 = .error .bufferFull ↔ bW7.ptr = bW7.max_size) ∧
    (bW7.ptr ≠ bW7.max_size →
      bW7.store 3 1 4 5 6 = .ok { bW7 with
        obs_buf := bW7.obs_buf.set bW7.ptr 3
        act_buf := bW7.act_buf.set bW7.ptr 1
        rew_buf := bW7.rew_buf.set bW7.ptr 4
        val_buf := bW7.val_buf.set bW7.ptr 5
        logp_buf := bW7.logp_buf.set bW7.ptr 6
        ptr := bW7.ptr + 1 }) ∧
    (∀ b', bW7.store 3 1 4 5 6 = .ok b' →
      b'.obs_buf[bW7.ptr]? = some 3 ∧ b'.act_buf[bW7.ptr]? = some 1 ∧
      b'.rew_buf.getD bW7.ptr 0 = 4 ∧ b'.val_buf.getD bW7.ptr 0 = 5 ∧
      b'.logp_buf.getD bW7.ptr 0 = 6 ∧ b'.ptr = bW7.ptr + 1 ∧
      b'.path_start_idx = bW7.path_start_idx ∧ b'.phi_buf = bW7.phi_buf ∧
      b'.ret_buf = bW7.ret_buf ∧ b'.max_size = bW7.max_size)) :=
  ⟨⟨by decide, by decide, by decide, by decide, by decide, by decide⟩,
    store_meets_spec bW7 3 1 4 5 6 (by decide) (by decide) (by decide)
      (by decide) (by decide) (by decide)⟩

/-- A concrete two-sample batch for C8. -/
def datW8 : BufData ℕ ℕ :=
  { obs := [0, 1], act := [1, 0], ret := [0, 0],
    phi := [1, 2], logp := [0, 0] }

/-- The current-parameter log-probability function for C8's witness. -/
def lpW8 : ℕ → ℕ → ℝ := fun _ _ => 3

/-- Concrete instantiation of C8's theorem at `datW8`, `lpW8`, `n = 2`. -/
theorem pi_update_meets_spec_witness :
    (datW8.obs.length = 2 ∧ datW8.act.length = 2 ∧ datW8.phi.length = 2) ∧
    ((pi_update lpW8 datW8).1 =
      -((∑ i ∈ Finset.range 2,
        datW8.phi.getD i 0 * lpW8 (datW8.obs.getD i 0) (datW8.act.getD i 0))
        / 2) ∧
    (pi_update lpW8 datW8).2.countP
      (fun e => match e with | OptEv.stepOpt => true | _ => false) = 1 ∧
    (∀ (cfg : TrainCfg) (env : EnvModel ℕ ℕ) (ac : ACModel ℕ ℕ)
      (st st' : LoopSt ℕ ℕ) (evs : List Ev),
      runEpoch cfg env ac st = .ok (st', evs) →
      evs.countP isPiEv = 1)) :=
  ⟨⟨by decide, by decide, by decide⟩, by
    have h := pi_update_meets_spec (0 : ℕ) (0 : ℕ) lpW8 datW8 2
      (by decide) (by decide) (by decide)
    simpa using h⟩

/-- A minimal configuration for C9's witness: one epoch of one step. -/
def cfgW9 : TrainCfg :=
  { steps_per_epoch := 1, epochs := 1, max_ep_len := 1, gamma := 1, lam := 1 }

/-- A trivial environment oracle for C9's witness. -/
def envW9 : EnvModel ℕ ℕ :=
  { resetFn := fun _ => 0, stepFn := fun _ s _ => (s, 0, false, false) }

/-- A trivial actor-critic oracle for C9's witness. -/
def acW9 : ACModel ℕ ℕ :=
  { stepFn := fun _ => (0, 0, 0), logProbFn := fun _ _ => 0 }

/-- Concrete instantiation of C9's theorem at the minimal configuration. -/
theorem train_loop_meets_spec_witness :
    0 < cfgW9.steps_per_epoch ∧
    (∃ fin trs, agentTrain cfgW9 envW9 acW9 0 0 = .ok (fin, trs) ∧
      trs.length = cfgW9.epochs ∧
      ∀ tr ∈ trs, storeIdxs tr = List.range cfgW9.steps_per_epoch ∧
        ∃ pre v2, tr = pre ++ [Ev.storeE (cfgW9.steps_per_epoch - 1),
          Ev.endTrajE v2, Ev.getE cfgW9.steps_per_epoch, Ev.piE, Ev.vE]) :=
  ⟨by decide, train_loop_meets_spec cfgW9 envW9 acW9 0 0 (by decide)⟩

/-- A concrete buffer whose open trajectory is empty for C10. -/
def bW10 : VPGBuffer ℕ ℕ :=
  { obs_buf := [0, 0], act_buf := [0, 0], phi_buf := [3, 4],
    rew_buf := [5, 6], ret_buf := [7, 8], val_buf := [9, 10],
    logp_buf := [11, 12], gamma := 1, lam := 1,
    ptr := 1, path_start_idx := 1, max_size := 2 }

/-- Concrete instantiation of C10's theorem at `bW10`, `last_value = 7`. -/
theorem end_traj_empty_slice_noop_witness :
    bW10.path_start_idx = bW10.ptr ∧ bW10.end_traj 7 = bW10 :=
  ⟨by decide, end_traj_empty_slice_noop bW10 7 (by decide)⟩
